import Mathlib

/-!
Verification of the telemetry collection subsystem of the repository
(`05_server`): the wire codec (`shared_v3/src/lib.rs`), the agent delivery
queue (`collector_nouuid/src/sender.rs`, `collector_v2/src/sender.rs`), the
command store (`server_v3/src/commands.rs`) and the connection handler
(`server_v3/src/collector.rs`).

Machine integers are embedded as `Nat` with explicit truncation (`% 2 ^ w`)
at the points where the source casts. Byte buffers are `List Nat` whose
elements are below 256. Panicking operations (`assert_eq!`, `unwrap`,
out-of-bounds indexing) are embedded as `Option` failure. The `f32` field
`average_cpu_usage` is embedded as its 32-bit IEEE bit pattern, which is what
`bincode` reads and writes.
-/

namespace Telemetry

/-! ## Byte-order helpers

`fromBE`/`toBE` model `uNN::from_be_bytes` / `to_be_bytes`; `fromLE`/`toLE`
model the little-endian fixed-width integer encoding used by `bincode`
(version 1.x, fixint encoding, as invoked by `bincode::serialize` /
`bincode::deserialize`). -/

/-- Big-endian value of a byte list (`u16::from_be_bytes`, `u32::from_be_bytes`). -/
def fromBE : List Nat → Nat
  | [] => 0
  | b :: rest => b * 256 ^ rest.length + fromBE rest

/-- Little-endian value of a byte list. -/
def fromLE : List Nat → Nat
  | [] => 0
  | b :: rest => b + 256 * fromLE rest

/-- Big-endian bytes of `n`, `k` bytes wide (`to_be_bytes`). -/
def toBE : Nat → Nat → List Nat
  | _, 0 => []
  | n, k + 1 => toBE (n / 256) k ++ [n % 256]

/-- Little-endian bytes of `n`, `k` bytes wide (bincode fixint encoding). -/
def toLE : Nat → Nat → List Nat
  | _, 0 => []
  | n, k + 1 => n % 256 :: toLE (n / 256) k

theorem toBE_length (n k : Nat) : (toBE n k).length = k := by
  induction k generalizing n with
  | zero => rfl
  | succ k ih => simp [toBE, ih]

theorem toLE_length (n k : Nat) : (toLE n k).length = k := by
  induction k generalizing n with
  | zero => rfl
  | succ k ih => simp [toLE, ih]

theorem toBE_lt (n k : Nat) : ∀ x ∈ toBE n k, x < 256 := by
  induction k generalizing n with
  | zero => simp [toBE]
  | succ k ih =>
    intro x hx
    simp only [toBE, List.mem_append, List.mem_singleton] at hx
    rcases hx with h | h
    · exact ih _ x h
    · subst h; exact Nat.mod_lt _ (by norm_num)

theorem toLE_lt (n k : Nat) : ∀ x ∈ toLE n k, x < 256 := by
  induction k generalizing n with
  | zero => simp [toLE]
  | succ k ih =>
    intro x hx
    simp only [toLE, List.mem_cons] at hx
    rcases hx with h | h
    · subst h; exact Nat.mod_lt _ (by norm_num)
    · exact ih _ x h

theorem fromBE_append (l₁ l₂ : List Nat) :
    fromBE (l₁ ++ l₂) = fromBE l₁ * 256 ^ l₂.length + fromBE l₂ := by
  induction l₁ with
  | nil => simp [fromBE]
  | cons b rest ih =>
    rw [List.cons_append]
    simp only [fromBE]
    rw [ih, List.length_append, pow_add]
    ring

theorem fromLE_toLE (n k : Nat) : fromLE (toLE n k) = n % 256 ^ k := by
  induction k generalizing n with
  | zero => simp [toLE, fromLE, Nat.mod_one]
  | succ k ih =>
    simp only [toLE, fromLE, ih]
    rw [pow_succ, Nat.mul_comm (256 ^ k) 256, Nat.mod_mul]

theorem fromBE_toBE (n k : Nat) : fromBE (toBE n k) = n % 256 ^ k := by
  induction k generalizing n with
  | zero => simp [toBE, fromBE, Nat.mod_one]
  | succ k ih =>
    rw [toBE, fromBE_append, ih]
    simp only [List.length_singleton, fromBE, pow_one, List.length_nil, pow_zero,
      mul_one, Nat.add_zero]
    rw [pow_succ, Nat.mul_comm (256 ^ k) 256, Nat.mod_mul]
    ring

theorem fromBE_lt (l : List Nat) (h : ∀ x ∈ l, x < 256) :
    fromBE l < 256 ^ l.length := by
  induction l with
  | nil => simp [fromBE]
  | cons b rest ih =>
    simp only [fromBE, List.length_cons]
    have hb : b < 256 := h b (by simp)
    have hr : fromBE rest < 256 ^ rest.length := ih (fun x hx => h x (by simp [hx]))
    calc b * 256 ^ rest.length + fromBE rest
        < b * 256 ^ rest.length + 256 ^ rest.length := by omega
      _ = (b + 1) * 256 ^ rest.length := by ring
      _ ≤ 256 * 256 ^ rest.length := by
          exact Nat.mul_le_mul_right _ (by omega)
      _ = 256 ^ (rest.length + 1) := by ring

theorem fromBE_inj (l₁ l₂ : List Nat) (hlen : l₁.length = l₂.length)
    (h₁ : ∀ x ∈ l₁, x < 256) (h₂ : ∀ x ∈ l₂, x < 256)
    (h : fromBE l₁ = fromBE l₂) : l₁ = l₂ := by
  induction l₁ generalizing l₂ with
  | nil => cases l₂ with
    | nil => rfl
    | cons b rest => simp at hlen
  | cons b rest ih =>
    cases l₂ with
    | nil => simp at hlen
    | cons b' rest' =>
      simp only [List.length_cons, Nat.succ.injEq] at hlen
      simp only [fromBE, hlen] at h
      have hb : b < 256 := h₁ b (by simp)
      have hb' : b' < 256 := h₂ b' (by simp)
      have hr : fromBE rest < 256 ^ rest.length := fromBE_lt _ (fun x hx => h₁ x (by simp [hx]))
      have hr' : fromBE rest' < 256 ^ rest'.length := fromBE_lt _ (fun x hx => h₂ x (by simp [hx]))
      rw [hlen] at hr
      have hbeq : b = b' := by
        by_contra hne
        rcases Nat.lt_or_ge b b' with hlt | hge
        · have : b * 256 ^ rest'.length + 256 ^ rest'.length ≤ b' * 256 ^ rest'.length := by
            calc b * 256 ^ rest'.length + 256 ^ rest'.length
                = (b + 1) * 256 ^ rest'.length := by ring
              _ ≤ b' * 256 ^ rest'.length := Nat.mul_le_mul_right _ hlt
          omega
        · have hlt : b' < b := by omega
          have : b' * 256 ^ rest'.length + 256 ^ rest'.length ≤ b * 256 ^ rest'.length := by
            calc b' * 256 ^ rest'.length + 256 ^ rest'.length
                = (b' + 1) * 256 ^ rest'.length := by ring
              _ ≤ b * 256 ^ rest'.length := Nat.mul_le_mul_right _ hlt
          omega
      subst hbeq
      have hreq : fromBE rest = fromBE rest' := by omega
      rw [ih rest' hlen (fun x hx => h₁ x (by simp [hx])) (fun x hx => h₂ x (by simp [hx])) hreq]

/-! ## CRC-32

`crc32fast_hash` embeds `crc32fast::hash`: the standard CRC-32 (ISO 3309,
reflected polynomial `0xEDB88320`, initial value `0xFFFFFFFF`, final
complement), computed bit by bit. -/

/-- The reflected CRC-32 polynomial. -/
def POLY : Nat := 0xEDB88320

/-- One bit step of the reflected CRC-32: shift right, conditionally
reduce by the polynomial. -/
def crcBit (crc : Nat) : Nat :=
  if crc &&& 1 = 1 then (crc >>> 1) ^^^ POLY else crc >>> 1

/-- Eight bit steps. -/
def crcBits8 (r : Nat) : Nat :=
  crcBit (crcBit (crcBit (crcBit (crcBit (crcBit (crcBit (crcBit r)))))))

/-- One byte step: fold the byte into the state, then eight bit steps. -/
def crcByte (crc byte : Nat) : Nat := crcBits8 (crc ^^^ byte)

/-- `crc32fast::hash`: CRC-32 of a byte sequence. -/
def crc32fast_hash (data : List Nat) : Nat :=
  (data.foldl crcByte 0xFFFFFFFF) ^^^ 0xFFFFFFFF

theorem xor_cancel_right {a b c : Nat} (h : a ^^^ c = b ^^^ c) : a = b := by
  have h' := congrArg (· ^^^ c) h
  simpa [Nat.xor_assoc] using h'

theorem crcBit_eq (r : Nat) :
    crcBit r = if r % 2 = 1 then (r / 2) ^^^ POLY else r / 2 := by
  simp [crcBit, Nat.and_one_is_mod, Nat.shiftRight_one]

theorem crcBit_lt {r : Nat} (h : r < 2 ^ 32) : crcBit r < 2 ^ 32 := by
  rw [crcBit_eq]
  split
  · exact Nat.xor_lt_two_pow (by omega) (by norm_num [POLY])
  · omega

theorem crcBit_odd_ge {r : Nat} (h : r < 2 ^ 32) (hodd : r % 2 = 1) :
    2 ^ 31 ≤ crcBit r := by
  rw [crcBit_eq, if_pos hodd]
  by_contra hlt
  push_neg at hlt
  have hbit := Nat.testBit_lt_two_pow hlt
  rw [Nat.testBit_xor] at hbit
  have h2 : (r / 2).testBit 31 = false := Nat.testBit_lt_two_pow (by omega)
  have h3 : POLY.testBit 31 = true := by decide
  rw [h2, h3] at hbit
  simp at hbit

theorem crcBit_even_lt {r : Nat} (h : r < 2 ^ 32) (heven : r % 2 = 0) :
    crcBit r < 2 ^ 31 := by
  rw [crcBit_eq, if_neg (by omega)]
  omega

theorem crcBit_inj {r₁ r₂ : Nat} (h₁ : r₁ < 2 ^ 32) (h₂ : r₂ < 2 ^ 32)
    (h : crcBit r₁ = crcBit r₂) : r₁ = r₂ := by
  rcases Nat.mod_two_eq_zero_or_one r₁ with p₁ | p₁ <;>
    rcases Nat.mod_two_eq_zero_or_one r₂ with p₂ | p₂
  · rw [crcBit_eq, if_neg (by omega), crcBit_eq, if_neg (by omega)] at h
    omega
  · have := crcBit_even_lt h₁ p₁
    have := crcBit_odd_ge h₂ p₂
    omega
  · have := crcBit_odd_ge h₁ p₁
    have := crcBit_even_lt h₂ p₂
    omega
  · rw [crcBit_eq, if_pos p₁, crcBit_eq, if_pos p₂] at h
    have := xor_cancel_right h
    omega

theorem crcBits8_lt {r : Nat} (h : r < 2 ^ 32) : crcBits8 r < 2 ^ 32 := by
  unfold crcBits8
  exact crcBit_lt (crcBit_lt (crcBit_lt (crcBit_lt
    (crcBit_lt (crcBit_lt (crcBit_lt (crcBit_lt h)))))))

theorem crcBits8_inj {r₁ r₂ : Nat} (h₁ : r₁ < 2 ^ 32) (h₂ : r₂ < 2 ^ 32)
    (h : crcBits8 r₁ = crcBits8 r₂) : r₁ = r₂ := by
  unfold crcBits8 at h
  have b1 := crcBit_lt h₁; have b2 := crcBit_lt b1; have b3 := crcBit_lt b2
  have b4 := crcBit_lt b3; have b5 := crcBit_lt b4; have b6 := crcBit_lt b5
  have b7 := crcBit_lt b6
  have c1 := crcBit_lt h₂; have c2 := crcBit_lt c1; have c3 := crcBit_lt c2
  have c4 := crcBit_lt c3; have c5 := crcBit_lt c4; have c6 := crcBit_lt c5
  have c7 := crcBit_lt c6
  exact crcBit_inj h₁ h₂ (crcBit_inj b1 c1 (crcBit_inj b2 c2 (crcBit_inj b3 c3
    (crcBit_inj b4 c4 (crcBit_inj b5 c5 (crcBit_inj b6 c6 (crcBit_inj b7 c7 h)))))))

theorem crcByte_lt {s b : Nat} (hs : s < 2 ^ 32) (hb : b < 256) :
    crcByte s b < 2 ^ 32 :=
  crcBits8_lt (Nat.xor_lt_two_pow hs (by omega))

theorem crcByte_inj_state {s₁ s₂ b : Nat} (h₁ : s₁ < 2 ^ 32) (h₂ : s₂ < 2 ^ 32)
    (hb : b < 256) (h : crcByte s₁ b = crcByte s₂ b) : s₁ = s₂ := by
  unfold crcByte at h
  have := crcBits8_inj (Nat.xor_lt_two_pow h₁ (by omega))
    (Nat.xor_lt_two_pow h₂ (by omega)) h
  exact xor_cancel_right this

theorem crcByte_inj_byte {s b₁ b₂ : Nat} (hs : s < 2 ^ 32) (h₁ : b₁ < 256)
    (h₂ : b₂ < 256) (h : crcByte s b₁ = crcByte s b₂) : b₁ = b₂ := by
  unfold crcByte at h
  have heq := crcBits8_inj (Nat.xor_lt_two_pow hs (by omega))
    (Nat.xor_lt_two_pow hs (by omega)) h
  have h' : s ^^^ b₁ ^^^ s = s ^^^ b₂ ^^^ s := by rw [heq]
  rw [Nat.xor_comm s b₁, Nat.xor_comm s b₂] at h'
  exact xor_cancel_right (xor_cancel_right h')

theorem crcFold_lt {l : List Nat} (hl : ∀ b ∈ l, b < 256) {s : Nat}
    (hs : s < 2 ^ 32) : l.foldl crcByte s < 2 ^ 32 := by
  induction l generalizing s with
  | nil => simpa using hs
  | cons b rest ih =>
    simp only [List.foldl_cons]
    exact ih (fun x hx => hl x (by simp [hx])) (crcByte_lt hs (hl b (by simp)))

theorem crcFold_inj_state {l : List Nat} (hl : ∀ b ∈ l, b < 256) {s₁ s₂ : Nat}
    (h₁ : s₁ < 2 ^ 32) (h₂ : s₂ < 2 ^ 32) (hne : s₁ ≠ s₂) :
    l.foldl crcByte s₁ ≠ l.foldl crcByte s₂ := by
  induction l generalizing s₁ s₂ with
  | nil => simpa using hne
  | cons b rest ih =>
    simp only [List.foldl_cons]
    have hb : b < 256 := hl b (by simp)
    exact ih (fun x hx => hl x (by simp [hx])) (crcByte_lt h₁ hb) (crcByte_lt h₂ hb)
      (fun h => hne (crcByte_inj_state h₁ h₂ hb h))

theorem crcFold_set_ne {l : List Nat} (hl : ∀ b ∈ l, b < 256) {i : Nat}
    (hi : i < l.length) {v : Nat} (hv : v < 256) (hne : v ≠ l.get ⟨i, hi⟩)
    {s : Nat} (hs : s < 2 ^ 32) :
    l.foldl crcByte s ≠ (l.set i v).foldl crcByte s := by
  induction l generalizing i s with
  | nil => simp at hi
  | cons b rest ih =>
    have hb : b < 256 := hl b (by simp)
    cases i with
    | zero =>
      simp only [List.set_cons_zero, List.foldl_cons]
      have hbv : b ≠ v := fun h => hne (by simpa [List.get] using h.symm)
      exact crcFold_inj_state (fun x hx => hl x (by simp [hx]))
        (crcByte_lt hs hb) (crcByte_lt hs hv)
        (fun h => hbv (crcByte_inj_byte hs hb hv h))
    | succ i =>
      simp only [List.set_cons_succ, List.foldl_cons]
      have hi' : i < rest.length := by simpa using hi
      exact ih (fun x hx => hl x (by simp [hx])) hi'
        (by simpa [List.get] using hne) (crcByte_lt hs hb)

theorem crc32fast_hash_lt {l : List Nat} (hl : ∀ b ∈ l, b < 256) :
    crc32fast_hash l < 2 ^ 32 := by
  unfold crc32fast_hash
  exact Nat.xor_lt_two_pow (crcFold_lt hl (by norm_num)) (by norm_num)

/-- Changing a single (in-range) byte of a byte sequence changes its CRC-32. -/
theorem crc32fast_hash_set_ne {l : List Nat} (hl : ∀ b ∈ l, b < 256) {i : Nat}
    (hi : i < l.length) {v : Nat} (hv : v < 256) (hne : v ≠ l.get ⟨i, hi⟩) :
    crc32fast_hash l ≠ crc32fast_hash (l.set i v) := by
  unfold crc32fast_hash
  intro h
  exact crcFold_set_ne hl hi hv hne (by norm_num) (xor_cancel_right h)

/-! ## Protocol data types (`shared_v3/src/lib.rs`)

`average_cpu_usage` is carried as the 32-bit pattern of the `f32`, which is
exactly what the serializer reads and writes. -/

/-- `shared_v3::TaskType`. -/
inductive TaskType
  | Shutdown
  deriving DecidableEq, Repr

/-- `shared_v3::CollectorCommandV1`. -/
inductive CollectorCommandV1
  | SubmitData (collector_id total_memory used_memory average_cpu_usage : Nat)
  | RequestWork (collector_id : Nat)
  deriving DecidableEq, Repr

/-- `shared_v3::CollectorResponseV1`. -/
inductive CollectorResponseV1
  | Ack
  | NoWork
  | Task (t : TaskType)
  deriving DecidableEq, Repr

/-- Field widths of a command (a `u128`, two `u64`s and an `f32` pattern),
implicit in the Rust types. -/
def CollectorCommandV1.valid : CollectorCommandV1 → Prop
  | .SubmitData cid tm um cpu =>
      cid < 2 ^ 128 ∧ tm < 2 ^ 64 ∧ um < 2 ^ 64 ∧ cpu < 2 ^ 32
  | .RequestWork cid => cid < 2 ^ 128

instance (c : CollectorCommandV1) : Decidable c.valid := by
  cases c <;> simp only [CollectorCommandV1.valid] <;> infer_instance

/-- `bincode::serialize` of a `CollectorCommandV1` (bincode 1.x legacy
config: fixint little-endian integers, `u32` little-endian variant tag). -/
def serializeCommand : CollectorCommandV1 → List Nat
  | .SubmitData cid tm um cpu =>
      toLE 0 4 ++ toLE cid 16 ++ toLE tm 8 ++ toLE um 8 ++ toLE cpu 4
  | .RequestWork cid => toLE 1 4 ++ toLE cid 16

/-- `bincode::deserialize::<CollectorCommandV1>` (bincode 1.x legacy config,
which tolerates trailing bytes after the value). -/
def deserializeCommand (b : List Nat) : Option CollectorCommandV1 :=
  if b.length < 4 then none
  else
    let tag := fromLE (b.take 4)
    if tag = 0 then
      if b.length < 40 then none
      else
        some (.SubmitData (fromLE ((b.drop 4).take 16))
          (fromLE ((b.drop 20).take 8)) (fromLE ((b.drop 28).take 8))
          (fromLE ((b.drop 36).take 4)))
    else if tag = 1 then
      if b.length < 20 then none
      else some (.RequestWork (fromLE ((b.drop 4).take 16)))
    else none

/-- `bincode::serialize` of a `CollectorResponseV1`. -/
def serializeResponse : CollectorResponseV1 → List Nat
  | .Ack => toLE 0 4
  | .NoWork => toLE 1 4
  | .Task .Shutdown => toLE 2 4 ++ toLE 0 4

/-- `shared_v3::encode_response_v1`: a response is sent as its bare
serialization, with no framing. -/
def encode_response_v1 (command : CollectorResponseV1) : List Nat :=
  serializeResponse command

/-- `shared_v3::decode_response_v1` (`bincode::deserialize`; the `unwrap`
on undecodable bytes is embedded as `none`). -/
def decode_response_v1 (bytes : List Nat) : Option CollectorResponseV1 :=
  if bytes.length < 4 then none
  else
    let tag := fromLE (bytes.take 4)
    if tag = 0 then some .Ack
    else if tag = 1 then some .NoWork
    else if tag = 2 then
      if bytes.length < 8 then none
      else if fromLE ((bytes.drop 4).take 4) = 0 then some (.Task .Shutdown)
      else none
    else none

/-! ## Frame codec (`shared_v3::encode_v1` / `decode_v1`) -/

def MAGIC_NUMBER : Nat := 1234

def VERSION_NUMBER : Nat := 1

/-- `shared_v3::encode_v1`. The timestamp taken from the clock
(`unix_now()`, seconds since the epoch cast to `u32`) is passed in as a
parameter; the `as u32` truncation is the `% 2 ^ 32`. -/
def encode_v1 (command : CollectorCommandV1) (now : Nat) : List Nat :=
  let payload_bytes := serializeCommand command
  let crc := crc32fast_hash payload_bytes
  let payload_size := payload_bytes.length
  let timestamp := now % 2 ^ 32
  toBE MAGIC_NUMBER 2 ++ toBE VERSION_NUMBER 2 ++ toBE timestamp 4 ++
    toBE payload_size 4 ++ payload_bytes ++ toBE crc 4

/-- `shared_v3::decode_v1`. The Rust function panics on short buffers, on a
magic/version/CRC mismatch and on an undeserializable payload; every panic
is embedded as `none`. -/
def decode_v1 (bytes : List Nat) : Option (Nat × CollectorCommandV1) :=
  if bytes.length < 12 then none
  else
    let magic_number := fromBE (bytes.take 2)
    let version_number := fromBE ((bytes.drop 2).take 2)
    let timestamp := fromBE ((bytes.drop 4).take 4)
    let payload_size := fromBE ((bytes.drop 8).take 4)
    if bytes.length < 16 + payload_size then none
    else
      let payload := (bytes.drop 12).take payload_size
      let crc := fromBE ((bytes.drop (12 + payload_size)).take 4)
      if magic_number = MAGIC_NUMBER then
        if version_number = VERSION_NUMBER then
          if crc = crc32fast_hash payload then
            (deserializeCommand payload).map (fun cmd => (timestamp, cmd))
          else none
        else none
      else none

/-! ## Serialization round trip -/

theorem serializeCommand_lt (c : CollectorCommandV1) :
    ∀ x ∈ serializeCommand c, x < 256 := by
  cases c with
  | SubmitData cid tm um cpu =>
    intro x hx
    simp only [serializeCommand, List.mem_append] at hx
    rcases hx with ((((h | h) | h) | h) | h) <;> exact toLE_lt _ _ x h
  | RequestWork cid =>
    intro x hx
    simp only [serializeCommand, List.mem_append] at hx
    rcases hx with h | h <;> exact toLE_lt _ _ x h

theorem serializeCommand_length_SubmitData (cid tm um cpu : Nat) :
    (serializeCommand (.SubmitData cid tm um cpu)).length = 40 := by
  simp [serializeCommand, toLE_length]

theorem serializeCommand_length_RequestWork (cid : Nat) :
    (serializeCommand (.RequestWork cid)).length = 20 := by
  simp [serializeCommand, toLE_length]

theorem deserialize_serialize (c : CollectorCommandV1) (hv : c.valid) :
    deserializeCommand (serializeCommand c) = some c := by
  cases c with
  | SubmitData cid tm um cpu =>
    obtain ⟨h1, h2, h3, h4⟩ := hv
    set b := serializeCommand (CollectorCommandV1.SubmitData cid tm um cpu) with hb
    have hlen : b.length = 40 := serializeCommand_length_SubmitData ..
    have hsplit : b = toLE 0 4 ++ (toLE cid 16 ++ (toLE tm 8 ++ (toLE um 8 ++ toLE cpu 4))) := by
      rw [hb]; simp [serializeCommand]
    have htake4 : b.take 4 = toLE 0 4 := by
      rw [hsplit]; exact List.take_left' (toLE_length 0 4)
    have hdrop4 : b.drop 4 = toLE cid 16 ++ (toLE tm 8 ++ (toLE um 8 ++ toLE cpu 4)) := by
      rw [hsplit]; exact List.drop_left' (toLE_length 0 4)
    have hdrop20 : b.drop 20 = toLE tm 8 ++ (toLE um 8 ++ toLE cpu 4) := by
      have h := List.drop_drop 16 4 b
      rw [hdrop4, List.drop_left' (toLE_length cid 16)] at h
      exact h.symm
    have hdrop28 : b.drop 28 = toLE um 8 ++ toLE cpu 4 := by
      have h := List.drop_drop 8 20 b
      rw [hdrop20, List.drop_left' (toLE_length tm 8)] at h
      exact h.symm
    have hdrop36 : b.drop 36 = toLE cpu 4 := by
      have h := List.drop_drop 8 28 b
      rw [hdrop28, List.drop_left' (toLE_length um 8)] at h
      exact h.symm
    have htake16 : (b.drop 4).take 16 = toLE cid 16 := by
      rw [hdrop4]; exact List.take_left' (toLE_length cid 16)
    have htake8a : (b.drop 20).take 8 = toLE tm 8 := by
      rw [hdrop20]; exact List.take_left' (toLE_length tm 8)
    have htake8b : (b.drop 28).take 8 = toLE um 8 := by
      rw [hdrop28]; exact List.take_left' (toLE_length um 8)
    have htake4' : (b.drop 36).take 4 = toLE cpu 4 := by
      rw [hdrop36]; exact List.take_of_length_le (by rw [toLE_length])
    have m1 : cid % 256 ^ 16 = cid := by
      have e : (256 : Nat) ^ 16 = 2 ^ 128 := by norm_num
      rw [e]; exact Nat.mod_eq_of_lt h1
    have m2 : tm % 256 ^ 8 = tm := by
      have e : (256 : Nat) ^ 8 = 2 ^ 64 := by norm_num
      rw [e]; exact Nat.mod_eq_of_lt h2
    have m3 : um % 256 ^ 8 = um := by
      have e : (256 : Nat) ^ 8 = 2 ^ 64 := by norm_num
      rw [e]; exact Nat.mod_eq_of_lt h3
    have m4 : cpu % 256 ^ 4 = cpu := by
      have e : (256 : Nat) ^ 4 = 2 ^ 32 := by norm_num
      rw [e]; exact Nat.mod_eq_of_lt h4
    simp only [deserializeCommand, hlen, htake4, htake16, htake8a, htake8b,
      htake4', fromLE_toLE, m1, m2, m3, m4]
    norm_num
  | RequestWork cid =>
    have h1 : cid < 2 ^ 128 := hv
    set b := serializeCommand (CollectorCommandV1.RequestWork cid) with hb
    have hlen : b.length = 20 := serializeCommand_length_RequestWork ..
    have hsplit : b = toLE 1 4 ++ toLE cid 16 := by rw [hb]; simp [serializeCommand]
    have htake4 : b.take 4 = toLE 1 4 := by
      rw [hsplit]; exact List.take_left' (toLE_length 1 4)
    have hdrop4 : b.drop 4 = toLE cid 16 := by
      rw [hsplit]; exact List.drop_left' (toLE_length 1 4)
    have htake16 : (b.drop 4).take 16 = toLE cid 16 := by
      rw [hdrop4]; exact List.take_of_length_le (by rw [toLE_length])
    have m1 : cid % 256 ^ 16 = cid := by
      have e : (256 : Nat) ^ 16 = 2 ^ 128 := by norm_num
      rw [e]; exact Nat.mod_eq_of_lt h1
    simp only [deserializeCommand, hlen, htake4, htake16, fromLE_toLE, m1]
    norm_num

theorem serializeCommand_length_lt (c : CollectorCommandV1) :
    (serializeCommand c).length < 2 ^ 32 := by
  cases c with
  | SubmitData cid tm um cpu => rw [serializeCommand_length_SubmitData]; norm_num
  | RequestWork cid => rw [serializeCommand_length_RequestWork]; norm_num

/-- Value of `decode_v1` on any buffer split into the six frame segments
(with the size field matching the payload length and any trailing bytes):
the three integrity checks decide the outcome. -/
theorem decode_shaped (m v t s p crc extra : List Nat)
    (hm : m.length = 2) (hv : v.length = 2) (ht : t.length = 4)
    (hs : s.length = 4) (hc : crc.length = 4) (hps : fromBE s = p.length) :
    decode_v1 (m ++ (v ++ (t ++ (s ++ (p ++ (crc ++ extra)))))) =
      if fromBE m = MAGIC_NUMBER then
        if fromBE v = VERSION_NUMBER then
          if fromBE crc = crc32fast_hash p then
            (deserializeCommand p).map (fun cmd => (fromBE t, cmd))
          else none
        else none
      else none := by
  set b := m ++ (v ++ (t ++ (s ++ (p ++ (crc ++ extra))))) with hb
  have hlen : b.length = 16 + p.length + extra.length := by
    rw [hb]; simp only [List.length_append, hm, hv, ht, hs, hc]; omega
  have htake2 : b.take 2 = m := by
    rw [hb]; exact List.take_left' hm
  have hdrop2 : b.drop 2 = v ++ (t ++ (s ++ (p ++ (crc ++ extra)))) := by
    rw [hb]; exact List.drop_left' hm
  have htakev : (b.drop 2).take 2 = v := by
    rw [hdrop2]; exact List.take_left' hv
  have hdrop4 : b.drop 4 = t ++ (s ++ (p ++ (crc ++ extra))) := by
    have h := List.drop_drop 2 2 b
    rw [hdrop2, List.drop_left' hv] at h
    exact h.symm
  have htakets : (b.drop 4).take 4 = t := by
    rw [hdrop4]; exact List.take_left' ht
  have hdrop8 : b.drop 8 = s ++ (p ++ (crc ++ extra)) := by
    have h := List.drop_drop 4 4 b
    rw [hdrop4, List.drop_left' ht] at h
    exact h.symm
  have htakeps : (b.drop 8).take 4 = s := by
    rw [hdrop8]; exact List.take_left' hs
  have hdrop12 : b.drop 12 = p ++ (crc ++ extra) := by
    have h := List.drop_drop 4 8 b
    rw [hdrop8, List.drop_left' hs] at h
    exact h.symm
  have htakep : (b.drop 12).take p.length = p := by
    rw [hdrop12]; exact List.take_left' rfl
  have hdrop12ps : b.drop (12 + p.length) = crc ++ extra := by
    have h := List.drop_drop p.length 12 b
    rw [hdrop12, List.drop_left' rfl] at h
    exact h.symm
  have htakecrc : (b.drop (12 + p.length)).take 4 = crc := by
    rw [hdrop12ps]; exact List.take_left' hc
  simp only [decode_v1, hlen, htake2, htakev, htakets, htakeps, hps, htakep,
    htakecrc]
  have c1 : ¬ (16 + p.length + extra.length < 12) := by omega
  have c2 : ¬ (16 + p.length + extra.length < 16 + p.length) := by omega
  rw [if_neg c1, if_neg c2]

/-- Decoding a well-formed frame (any payload, any trailing bytes) reaches
the payload deserializer: the header checks pass by construction. -/
theorem decode_frame (p : List Nat) (hplt : ∀ x ∈ p, x < 256)
    (hpslt : p.length < 2 ^ 32) (ts : Nat) (hts : ts < 2 ^ 32)
    (extra : List Nat) :
    decode_v1 (toBE 1234 2 ++ (toBE 1 2 ++ (toBE ts 4 ++ (toBE p.length 4 ++
        (p ++ (toBE (crc32fast_hash p) 4 ++ extra)))))) =
      (deserializeCommand p).map (fun cmd => (ts, cmd)) := by
  have e : (256 : Nat) ^ 4 = 2 ^ 32 := by norm_num
  have hpsval : fromBE (toBE p.length 4) = p.length := by
    rw [fromBE_toBE, e]; exact Nat.mod_eq_of_lt hpslt
  rw [decode_shaped _ _ _ _ _ _ _ (toBE_length 1234 2) (toBE_length 1 2)
    (toBE_length ts 4) (toBE_length p.length 4) (toBE_length _ 4) hpsval]
  have hmagic : fromBE (toBE 1234 2) = MAGIC_NUMBER := by
    rw [fromBE_toBE]; norm_num [MAGIC_NUMBER]
  have hversion : fromBE (toBE 1 2) = VERSION_NUMBER := by
    rw [fromBE_toBE]; norm_num [VERSION_NUMBER]
  have hcrcval : fromBE (toBE (crc32fast_hash p) 4) = crc32fast_hash p := by
    rw [fromBE_toBE, e]; exact Nat.mod_eq_of_lt (crc32fast_hash_lt hplt)
  have htsval : fromBE (toBE ts 4) = ts := by
    rw [fromBE_toBE, e]; exact Nat.mod_eq_of_lt hts
  rw [if_pos hmagic, if_pos hversion, if_pos hcrcval, htsval]

/-- `decode_v1` inverts `encode_v1`, with any trailing bytes ignored. -/
theorem decode_encode_append (c : CollectorCommandV1) (hv : c.valid) (now : Nat)
    (extra : List Nat) :
    decode_v1 (encode_v1 c now ++ extra) = some (now % 2 ^ 32, c) := by
  have hshape : encode_v1 c now ++ extra =
      toBE 1234 2 ++ (toBE 1 2 ++ (toBE (now % 2 ^ 32) 4 ++
        (toBE (serializeCommand c).length 4 ++ (serializeCommand c ++
          (toBE (crc32fast_hash (serializeCommand c)) 4 ++ extra))))) := by
    simp [encode_v1, MAGIC_NUMBER, VERSION_NUMBER, List.append_assoc]
  rw [hshape, decode_frame _ (serializeCommand_lt c) (serializeCommand_length_lt c)
    _ (Nat.mod_lt _ (by norm_num)) extra, deserialize_serialize c hv]
  rfl

/-- The payload-size field of a buffer, as `decode_v1` reads it. -/
def psField (b : List Nat) : Nat := fromBE ((b.drop 8).take 4)

/-- The payload slice of a buffer, as `decode_v1` reads it. -/
def payloadField (b : List Nat) : List Nat := (b.drop 12).take (psField b)

/-- The trailing checksum field of a buffer, as `decode_v1` reads it. -/
def crcField (b : List Nat) : Nat := fromBE ((b.drop (12 + psField b)).take 4)

/-- Complete characterization of successful decoding: `decode_v1` returns a
value exactly on buffers that are long enough, carry the magic and version
constants, whose recomputed payload CRC matches the trailing checksum field,
and whose payload deserializes; the timestamp returned is the timestamp
field. -/
theorem decode_v1_eq_some_iff (b : List Nat) (t : Nat) (c : CollectorCommandV1) :
    decode_v1 b = some (t, c) ↔
      12 ≤ b.length ∧
      16 + psField b ≤ b.length ∧
      fromBE (b.take 2) = MAGIC_NUMBER ∧
      fromBE ((b.drop 2).take 2) = VERSION_NUMBER ∧
      crcField b = crc32fast_hash (payloadField b) ∧
      deserializeCommand (payloadField b) = some c ∧
      t = fromBE ((b.drop 4).take 4) := by
  simp only [decode_v1, psField, payloadField, crcField]
  split_ifs with h1 h2 h3 h4 h5
  · simp only [false_iff]
    intro h
    omega
  · simp only [false_iff]
    intro h
    omega
  · simp only [Option.map_eq_some']
    constructor
    · rintro ⟨cmd, hcmd, heq⟩
      injection heq with e1 e2
      subst e1; subst e2
      exact ⟨by omega, by omega, h3, h4, h5, hcmd, rfl⟩
    · rintro ⟨-, -, -, -, -, hdes, rfl⟩
      exact ⟨c, hdes, rfl⟩
  · simp only [false_iff]
    rintro ⟨-, -, -, -, hcrc, -, -⟩
    exact h5 hcrc
  · simp only [false_iff]
    rintro ⟨-, -, -, hver, -, -, -⟩
    exact h4 hver
  · simp only [false_iff]
    rintro ⟨-, -, hmag, -, -, -, -⟩
    exact h3 hmag

/-! ## Single-byte corruption -/

theorem set_append_add (A B : List Nat) (j x : Nat) :
    (A ++ B).set (A.length + j) x = A ++ B.set j x := by
  rw [List.set_append_right _ _ (Nat.le_add_right _ _), Nat.add_sub_cancel_left]

theorem getD_append_add (A B : List Nat) (j : Nat) :
    (A ++ B).getD (A.length + j) 0 = B.getD j 0 := by
  rw [List.getD_append_right _ _ _ _ (Nat.le_add_right _ _), Nat.add_sub_cancel_left]

theorem set_shape_five (m v t s rest : List Nat) (hm : m.length = 2)
    (hv : v.length = 2) (ht : t.length = 4) (hs : s.length = 4) (j x : Nat) :
    (m ++ (v ++ (t ++ (s ++ rest)))).set (12 + j) x =
      m ++ (v ++ (t ++ (s ++ rest.set j x))) := by
  have e : 12 + j = m.length + (v.length + (t.length + (s.length + j))) := by
    rw [hm, hv, ht, hs]; omega
  rw [e, set_append_add, set_append_add, set_append_add, set_append_add]

theorem getD_shape_five (m v t s rest : List Nat) (hm : m.length = 2)
    (hv : v.length = 2) (ht : t.length = 4) (hs : s.length = 4) (j : Nat) :
    (m ++ (v ++ (t ++ (s ++ rest)))).getD (12 + j) 0 = rest.getD j 0 := by
  have e : 12 + j = m.length + (v.length + (t.length + (s.length + j))) := by
    rw [hm, hv, ht, hs]; omega
  rw [e, getD_append_add, getD_append_add, getD_append_add, getD_append_add]

theorem set_lt {l : List Nat} (hl : ∀ x ∈ l, x < 256) {j v : Nat}
    (hv : v < 256) : ∀ x ∈ l.set j v, x < 256 := by
  intro x hx
  rcases List.mem_or_eq_of_mem_set hx with h | h
  · exact hl x h
  · subst h; exact hv

/-- Corrupting a byte of the (length-4, byte-valued) checksum segment
changes the value the decoder reads there. -/
theorem fromBE_set_ne {l : List Nat} (hl : ∀ x ∈ l, x < 256) {j : Nat}
    (hj : j < l.length) {v : Nat} (hv : v < 256) (hne : v ≠ l.get ⟨j, hj⟩) :
    fromBE (l.set j v) ≠ fromBE l := by
  intro h
  have heq : l.set j v = l :=
    fromBE_inj _ _ (by simp) (set_lt hl hv) hl h
  have h1 : (l.set j v).getD j 0 = v := by
    rw [List.getD_eq_getElem _ _ (by simpa using hj)]
    exact List.getElem_set_self _
  have h2 : l.getD j 0 = l.get ⟨j, hj⟩ := List.getD_eq_get _ _ hj
  rw [heq, h2] at h1
  exact hne h1.symm

/-- The shape of an encoded frame, split at the six segment boundaries. -/
theorem encode_v1_shape (c : CollectorCommandV1) (now : Nat) :
    encode_v1 c now = [4, 210] ++ ([0, 1] ++ (toBE (now % 2 ^ 32) 4 ++
      (toBE (serializeCommand c).length 4 ++ (serializeCommand c ++
        (toBE (crc32fast_hash (serializeCommand c)) 4 ++ []))))) := by
  have e1 : toBE 1234 2 = [4, 210] := by decide
  have e2 : toBE 1 2 = [0, 1] := by decide
  simp [encode_v1, MAGIC_NUMBER, VERSION_NUMBER, List.append_assoc, e1, e2]

/-- Replacing any single byte of the magic, version, payload or checksum
segment of an encoded frame by a different byte value makes decoding fail. -/
theorem decode_set_corrupt (c : CollectorCommandV1) (now i v : Nat)
    (hreg : i < 4 ∨ (12 ≤ i ∧ i < 12 + (serializeCommand c).length) ∨
      (12 + (serializeCommand c).length ≤ i ∧
        i < 16 + (serializeCommand c).length))
    (hvlt : v < 256) (hne : v ≠ (encode_v1 c now).getD i 0) :
    decode_v1 ((encode_v1 c now).set i v) = none := by
  have hplt := serializeCommand_lt c
  have hps32 := serializeCommand_length_lt c
  have e256 : (256 : Nat) ^ 4 = 2 ^ 32 := by norm_num
  have hpsval : fromBE (toBE (serializeCommand c).length 4) =
      (serializeCommand c).length := by
    rw [fromBE_toBE, e256]; exact Nat.mod_eq_of_lt hps32
  have hmagicval : fromBE ([4, 210] : List Nat) = MAGIC_NUMBER := by decide
  have hversionval : fromBE ([0, 1] : List Nat) = VERSION_NUMBER := by decide
  have hcrcval : fromBE (toBE (crc32fast_hash (serializeCommand c)) 4) =
      crc32fast_hash (serializeCommand c) := by
    rw [fromBE_toBE, e256]; exact Nat.mod_eq_of_lt (crc32fast_hash_lt hplt)
  rw [encode_v1_shape] at hne ⊢
  rcases hreg with hi | ⟨hi12, hips⟩ | ⟨hips, hi16⟩
  · -- magic or version byte
    interval_cases i
    · have hset : ([4, 210] ++ ([0, 1] ++ (toBE (now % 2 ^ 32) 4 ++
          (toBE (serializeCommand c).length 4 ++ (serializeCommand c ++
            (toBE (crc32fast_hash (serializeCommand c)) 4 ++ []))))) : List Nat).set 0 v =
          [v, 210] ++ ([0, 1] ++ (toBE (now % 2 ^ 32) 4 ++
          (toBE (serializeCommand c).length 4 ++ (serializeCommand c ++
            (toBE (crc32fast_hash (serializeCommand c)) 4 ++ []))))) := rfl
      rw [hset, decode_shaped _ _ _ _ _ _ _ (by rfl) (by rfl) (toBE_length _ 4)
        (toBE_length _ 4) (toBE_length _ 4) hpsval, if_neg]
      have hv4 : v ≠ 4 := by simpa using hne
      simp only [fromBE, MAGIC_NUMBER, List.length_cons, List.length_nil]
      omega
    · have hset : ([4, 210] ++ ([0, 1] ++ (toBE (now % 2 ^ 32) 4 ++
          (toBE (serializeCommand c).length 4 ++ (serializeCommand c ++
            (toBE (crc32fast_hash (serializeCommand c)) 4 ++ []))))) : List Nat).set 1 v =
          [4, v] ++ ([0, 1] ++ (toBE (now % 2 ^ 32) 4 ++
          (toBE (serializeCommand c).length 4 ++ (serializeCommand c ++
            (toBE (crc32fast_hash (serializeCommand c)) 4 ++ []))))) := rfl
      rw [hset, decode_shaped _ _ _ _ _ _ _ (by rfl) (by rfl) (toBE_length _ 4)
        (toBE_length _ 4) (toBE_length _ 4) hpsval, if_neg]
      have hv210 : v ≠ 210 := by simpa using hne
      simp only [fromBE, MAGIC_NUMBER, List.length_cons, List.length_nil]
      omega
    · have hset : ([4, 210] ++ ([0, 1] ++ (toBE (now % 2 ^ 32) 4 ++
          (toBE (serializeCommand c).length 4 ++ (serializeCommand c ++
            (toBE (crc32fast_hash (serializeCommand c)) 4 ++ []))))) : List Nat).set 2 v =
          [4, 210] ++ ([v, 1] ++ (toBE (now % 2 ^ 32) 4 ++
          (toBE (serializeCommand c).length 4 ++ (serializeCommand c ++
            (toBE (crc32fast_hash (serializeCommand c)) 4 ++ []))))) := rfl
      rw [hset, decode_shaped _ _ _ _ _ _ _ (by rfl) (by rfl) (toBE_length _ 4)
        (toBE_length _ 4) (toBE_length _ 4) hpsval, if_pos hmagicval, if_neg]
      have hv0 : v ≠ 0 := by simpa using hne
      simp only [fromBE, VERSION_NUMBER, List.length_cons, List.length_nil]
      omega
    · have hset : ([4, 210] ++ ([0, 1] ++ (toBE (now % 2 ^ 32) 4 ++
          (toBE (serializeCommand c).length 4 ++ (serializeCommand c ++
            (toBE (crc32fast_hash (serializeCommand c)) 4 ++ []))))) : List Nat).set 3 v =
          [4, 210] ++ ([0, v] ++ (toBE (now % 2 ^ 32) 4 ++
          (toBE (serializeCommand c).length 4 ++ (serializeCommand c ++
            (toBE (crc32fast_hash (serializeCommand c)) 4 ++ []))))) := rfl
      rw [hset, decode_shaped _ _ _ _ _ _ _ (by rfl) (by rfl) (toBE_length _ 4)
        (toBE_length _ 4) (toBE_length _ 4) hpsval, if_pos hmagicval, if_neg]
      have hv1 : v ≠ 1 := by simpa using hne
      simp only [fromBE, VERSION_NUMBER, List.length_cons, List.length_nil]
      omega
  · -- payload byte
    have hij : i = 12 + (i - 12) := by omega
    have hj : i - 12 < (serializeCommand c).length := by omega
    rw [hij, getD_shape_five _ _ _ _ _ (by rfl) (by rfl) (toBE_length _ 4)
      (toBE_length _ 4)] at hne
    rw [List.getD_append _ _ _ _ hj, List.getD_eq_getElem _ _ hj] at hne
    rw [hij, set_shape_five _ _ _ _ _ (by rfl) (by rfl) (toBE_length _ 4) (toBE_length _ 4),
      List.set_append_left _ _ hj,
      decode_shaped _ _ _ _ _ _ _ (by rfl) (by rfl) (toBE_length _ 4) (toBE_length _ 4)
        (toBE_length _ 4) (by rw [hpsval, List.length_set]),
      if_pos hmagicval, if_pos hversionval, if_neg]
    rw [hcrcval]
    exact crc32fast_hash_set_ne hplt hj hvlt (by simpa using hne)
  · -- checksum byte
    have hij : i = 12 + ((serializeCommand c).length + (i - 12 -
      (serializeCommand c).length)) := by omega
    have hj : i - 12 - (serializeCommand c).length <
        (toBE (crc32fast_hash (serializeCommand c)) 4).length := by
      rw [toBE_length]; omega
    rw [hij, getD_shape_five _ _ _ _ _ (by rfl) (by rfl) (toBE_length _ 4)
      (toBE_length _ 4), getD_append_add,
      List.getD_append _ _ _ _ hj, List.getD_eq_getElem _ _ hj] at hne
    rw [hij, set_shape_five _ _ _ _ _ (by rfl) (by rfl) (toBE_length _ 4) (toBE_length _ 4),
      set_append_add, List.set_append_left _ _ hj,
      decode_shaped _ _ _ _ _ _ _ (by rfl) (by rfl) (toBE_length _ 4) (toBE_length _ 4)
        (by rw [List.length_set, toBE_length]) hpsval,
      if_pos hmagicval, if_pos hversionval, if_neg]
    intro hEq
    exact fromBE_set_ne (toBE_lt _ 4) hj hvlt (by simpa using hne)
      (hEq.trans hcrcval.symm)

/-! ## Command store (`server_v3/src/commands.rs`) -/

/-- The `COMMANDS` map, collector identity → pending `TaskType`; the
`HashMap<u128, TaskType>` is embedded as a function into `Option`. -/
def CommandStore := Nat → Option TaskType

/-- `commands::add_command` (`HashMap::insert`; a later write overwrites). -/
def add_command (store : CommandStore) (collector_id : Nat)
    (command : TaskType) : CommandStore :=
  fun id => if id = collector_id then some command else store id

/-- `commands::get_commands` (`HashMap::remove`: returns the entry and
deletes it). The pair is the removed value and the store afterwards. -/
def get_commands (store : CommandStore) (collector_id : Nat) :
    Option TaskType × CommandStore :=
  (store collector_id, fun id => if id = collector_id then none else store id)

/-! ## Connection handler (`server_v3/src/collector.rs`) -/

/-- A persisted `timeseries` row. `collector_id` is kept as the `u128`
behind the UUID string (`Uuid::from_u128(..).to_string()` is an injective
renaming); the memory columns carry the `as i64` cast of the source. -/
structure Row where
  collector_id : Nat
  received : Nat
  total_memory : Int
  used_memory : Int
  average_cpu : Nat
  deriving DecidableEq, Repr

/-- The `u64 as i64` cast applied when binding the memory columns. -/
def i64ofNat (n : Nat) : Int :=
  if n % 2 ^ 64 < 2 ^ 63 then (n % 2 ^ 64 : Int) else (n % 2 ^ 64 : Int) - 2 ^ 64

/-- Server-side mutable state touched by one connection handler: the shared
command map and the database table. -/
structure ServerState where
  store : CommandStore
  rows : List Row

/-- One message step of `collector::new_connection`, after `decode_v1`
produced `(timestamp, cmd)`: returns the response bytes written back
(`none` when no response is sent) and the updated server state.
`insert_ok` is whether the database `INSERT` succeeds; on failure the
error is only logged. -/
def new_connection_step (state : ServerState) (timestamp : Nat)
    (cmd : CollectorCommandV1) (insert_ok : Bool) :
    Option (List Nat) × ServerState :=
  match cmd with
  | .RequestWork collector_id =>
      match get_commands state.store collector_id with
      | (some commands, store') =>
          (some (encode_response_v1 (.Task commands)), { state with store := store' })
      | (none, store') =>
          (some (encode_response_v1 .NoWork), { state with store := store' })
  | .SubmitData collector_id total_memory used_memory average_cpu_usage =>
      if insert_ok then
        (some (encode_response_v1 .Ack),
          { state with rows := state.rows ++
              [⟨collector_id, timestamp, i64ofNat total_memory,
                i64ofNat used_memory, average_cpu_usage⟩] })
      else (none, state)

/-! ## Agent delivery queue (`collector_nouuid/src/sender.rs`,
`collector_v2/src/sender.rs`) -/

/-- `errors::CollectorError`. The `collector_v2` crate declares the first
two variants; the full sender additionally uses `UnableToReceiveData`
(spec §7 names all three at the transport boundary). -/
inductive CollectorError
  | UnableToConnect
  | UnableToSendData
  | UnableToReceiveData
  deriving DecidableEq, Repr

/-- What the network does on one write/read interaction of the delivery
cycle: the write fails, the read fails, the read returns zero bytes (peer
closed), or the read yields bytes decoding to response `r`. -/
inductive NetEvent
  | writeFail
  | readFail
  | readZero
  | response (r : CollectorResponseV1)
  deriving DecidableEq, Repr

/-- The per-frame loop of `collector_nouuid::sender::send_queue`
(`while let Some(command) = queue.pop_front()`): write the popped frame,
then read the response. On a write failure, a zero-byte read or a
non-`Ack` response the frame is pushed back to the front and the cycle
aborts; on a read *error* the source propagates it with
`.map_err(..)?` and does **not** push the popped frame back, so that
frame is dropped from the queue. The `i`-th interaction of the cycle
uses `events i`. Returns the result, the final queue and the frames
successfully written, in order. -/
def send_loop (events : Nat → NetEvent) :
    Nat → List (List Nat) →
      Except CollectorError Unit × List (List Nat) × List (List Nat)
  | _, [] => (.ok (), [], [])
  | i, command :: rest =>
    match events i with
    | .writeFail => (.error .UnableToSendData, command :: rest, [])
    | .readFail => (.error .UnableToReceiveData, rest, [command])
    | .readZero => (.error .UnableToReceiveData, command :: rest, [command])
    | .response r =>
      if r = .Ack then
        let out := send_loop events (i + 1) rest
        (out.1, out.2.1, command :: out.2.2)
      else (.error .UnableToReceiveData, command :: rest, [command])

/-- `collector_nouuid::sender::send_queue`: connect, drain the queue with
acknowledgments, then send one `RequestWork` frame and interpret the
response (`NoWork` and any response other than `Task` are no-ops). -/
def send_queue (connect_ok : Bool) (events : Nat → NetEvent)
    (queue : List (List Nat)) (collector_id : Nat) (now : Nat) :
    Except CollectorError Unit × List (List Nat) × List (List Nat) :=
  if connect_ok then
    match send_loop events 0 queue with
    | (.error e, q, sent) => (.error e, q, sent)
    | (.ok _, q, sent) =>
      let bytes := encode_v1 (.RequestWork collector_id) now
      match events queue.length with
      | .writeFail => (.error .UnableToSendData, q, sent)
      | .readFail => (.error .UnableToReceiveData, q, sent ++ [bytes])
      | .readZero => (.error .UnableToReceiveData, q, sent ++ [bytes])
      | .response _ => (.ok (), q, sent ++ [bytes])
  else (.error .UnableToConnect, queue, [])

/-- Consecutive delivery cycles of the agent: each cycle gets its own
connect outcome and network events, and the queue is threaded through. -/
def run_cycles (collector_id now : Nat) :
    List (Bool × (Nat → NetEvent)) → List (List Nat) → List (List Nat)
  | [], queue => queue
  | (ok, ev) :: rest, queue =>
      run_cycles collector_id now rest (send_queue ok ev queue collector_id now).2.1

/-- The per-frame loop of `collector_v2::sender::send_queue`: the earlier
iteration that only writes frames, with no acknowledgment read; `writes i`
is whether the `i`-th `write_all` succeeds. -/
def send_loop_v2 (writes : Nat → Bool) :
    Nat → List (List Nat) → Except CollectorError Unit × List (List Nat)
  | _, [] => (.ok (), [])
  | i, command :: rest =>
    if writes i then send_loop_v2 writes (i + 1) rest
    else (.error .UnableToSendData, command :: rest)

/-- `collector_v2::sender::send_queue`. -/
def send_queue_v2 (connect_ok : Bool) (writes : Nat → Bool)
    (queue : List (List Nat)) : Except CollectorError Unit × List (List Nat) :=
  if connect_ok then send_loop_v2 writes 0 queue
  else (.error .UnableToConnect, queue)

/-! ## Delivery queue lemmas -/

theorem head?_drop (l : List (List Nat)) (n : Nat) : (l.drop n).head? = l[n]? := by
  induction l generalizing n with
  | nil => simp
  | cons a t ih =>
    cases n with
    | zero => simp
    | succ n => simpa using ih n

/-- Whatever happens during the per-frame loop, the final queue is a
drop of the original queue: frames leave from the front (one per `Ack`,
plus the one frame dropped when a read error aborts the cycle), so the
relative order of the remaining frames is preserved. -/
theorem send_loop_queue_spec (events : Nat → NetEvent) (queue : List (List Nat))
    (i : Nat) :
    ∃ k, k ≤ queue.length ∧ (send_loop events i queue).2.1 = queue.drop k := by
  induction queue generalizing i with
  | nil => exact ⟨0, by simp, by simp [send_loop]⟩
  | cons command rest ih =>
    cases hev : events i with
    | writeFail =>
      exact ⟨0, by simp, by simp [send_loop, hev]⟩
    | readFail =>
      exact ⟨1, by simp, by simp [send_loop, hev]⟩
    | readZero =>
      exact ⟨0, by simp, by simp [send_loop, hev]⟩
    | response r =>
      by_cases hr : r = CollectorResponseV1.Ack
      · subst hr
        obtain ⟨k, hk, hq⟩ := ih (i + 1)
        refine ⟨k + 1, by simpa using Nat.succ_le_succ hk, ?_⟩
        simpa [send_loop, hev] using hq
      · exact ⟨0, by simp, by simp [send_loop, hev, hr]⟩

/-- The loop succeeds exactly when every frame is acknowledged. -/
theorem send_loop_ok_iff (events : Nat → NetEvent) (queue : List (List Nat))
    (i : Nat) :
    (send_loop events i queue).1 = .ok () ↔
      ∀ j < queue.length, events (i + j) = NetEvent.response .Ack := by
  induction queue generalizing i with
  | nil => simp [send_loop]
  | cons command rest ih =>
    cases hev : events i with
    | writeFail =>
      simp only [send_loop, hev]
      constructor
      · intro h; exact absurd h (by simp)
      · intro h
        have := h 0 (by simp)
        rw [Nat.add_zero, hev] at this
        exact absurd this (by simp)
    | readFail =>
      simp only [send_loop, hev]
      constructor
      · intro h; exact absurd h (by simp)
      · intro h
        have := h 0 (by simp)
        rw [Nat.add_zero, hev] at this
        exact absurd this (by simp)
    | readZero =>
      simp only [send_loop, hev]
      constructor
      · intro h; exact absurd h (by simp)
      · intro h
        have := h 0 (by simp)
        rw [Nat.add_zero, hev] at this
        exact absurd this (by simp)
    | response r =>
      by_cases hr : r = CollectorResponseV1.Ack
      · subst hr
        have hstep : (send_loop events i (command :: rest)).1 =
            (send_loop events (i + 1) rest).1 := by
          simp [send_loop, hev]
        rw [hstep, ih (i + 1)]
        constructor
        · intro h j hj
          cases j with
          | zero => simpa using hev
          | succ j =>
            rw [show i + (j + 1) = i + 1 + j by omega]
            exact h j (by simpa using hj)
        · intro h j hj
          rw [show i + 1 + j = i + (j + 1) by omega]
          exact h (j + 1) (by simpa using hj)
      · simp only [send_loop, hev, if_neg hr]
        constructor
        · intro h; exact absurd h (by simp)
        · intro h
          have := h 0 (by simp)
          rw [Nat.add_zero, hev] at this
          exact absurd (NetEvent.response.inj this) hr

/-- On success the loop has emptied the queue and written every frame, in
the original order. -/
theorem send_loop_ok_out (events : Nat → NetEvent) (queue : List (List Nat))
    (i : Nat) (h : (send_loop events i queue).1 = .ok ()) :
    (send_loop events i queue).2.1 = [] ∧
      (send_loop events i queue).2.2 = queue := by
  induction queue generalizing i with
  | nil => simp [send_loop]
  | cons command rest ih =>
    cases hev : events i with
    | writeFail => simp [send_loop, hev] at h
    | readFail => simp [send_loop, hev] at h
    | readZero => simp [send_loop, hev] at h
    | response r =>
      by_cases hr : r = CollectorResponseV1.Ack
      · subst hr
        have hstep : (send_loop events i (command :: rest)).1 =
            (send_loop events (i + 1) rest).1 := by
          simp [send_loop, hev]
        rw [hstep] at h
        obtain ⟨h1, h2⟩ := ih (i + 1) h
        constructor
        · have : (send_loop events i (command :: rest)).2.1 =
              (send_loop events (i + 1) rest).2.1 := by
            simp [send_loop, hev]
          rw [this, h1]
        · have : (send_loop events i (command :: rest)).2.2 =
              command :: (send_loop events (i + 1) rest).2.2 := by
            simp [send_loop, hev]
          rw [this, h2]
      · simp [send_loop, hev, hr] at h

/-- One delivery cycle only ever shortens the queue from the front: the
final queue is a drop of the original. -/
theorem send_queue_queue_spec (connect_ok : Bool) (events : Nat → NetEvent)
    (queue : List (List Nat)) (collector_id now : Nat) :
    ∃ k, k ≤ queue.length ∧
      (send_queue connect_ok events queue collector_id now).2.1 =
        queue.drop k := by
  cases connect_ok with
  | false =>
    exact ⟨0, by simp, by simp [send_queue]⟩
  | true =>
    obtain ⟨k, hk, hq⟩ := send_loop_queue_spec events queue 0
    rcases hsl : send_loop events 0 queue with ⟨res, q', sent⟩
    rw [hsl] at hq
    cases res with
    | error e =>
      exact ⟨k, hk, by simp only [send_queue, if_pos rfl, hsl]; exact hq⟩
    | ok u =>
      have hok : (send_loop events 0 queue).1 = .ok () := by rw [hsl]
      obtain ⟨h1, -⟩ := send_loop_ok_out events queue 0 hok
      rw [hsl] at h1
      refine ⟨queue.length, le_refl _, ?_⟩
      have hdrop : queue.drop queue.length = [] := List.drop_length queue
      cases hev : events queue.length with
      | writeFail => simp only [send_queue, if_pos rfl, hsl, hev, hdrop]; exact h1
      | readFail => simp only [send_queue, if_pos rfl, hsl, hev, hdrop]; exact h1
      | readZero => simp only [send_queue, if_pos rfl, hsl, hev, hdrop]; exact h1
      | response r => simp only [send_queue, if_pos rfl, hsl, hev, hdrop]; exact h1

/-- Across any number of consecutive delivery cycles, the queue left over
is exactly the original queue with an initial segment removed. -/
theorem run_cycles_drop (collector_id now : Nat)
    (envs : List (Bool × (Nat → NetEvent))) (queue : List (List Nat)) :
    ∃ k, k ≤ queue.length ∧
      run_cycles collector_id now envs queue = queue.drop k := by
  induction envs generalizing queue with
  | nil => exact ⟨0, by simp, by simp [run_cycles]⟩
  | cons env rest ih =>
    obtain ⟨ok, ev⟩ := env
    obtain ⟨k1, hk1, hq1⟩ := send_queue_queue_spec ok ev queue collector_id now
    obtain ⟨k2, hk2, hq2⟩ := ih (send_queue ok ev queue collector_id now).2.1
    rw [hq1] at hq2 hk2
    rw [List.length_drop] at hk2
    refine ⟨k1 + k2, by omega, ?_⟩
    rw [run_cycles, hq1, hq2, List.drop_drop]

/-- Success of a whole delivery cycle: connect succeeded, every queued
frame was answered with `Ack`, and the `RequestWork` interaction got some
response back — whatever that response is. -/
theorem send_queue_ok_iff (connect_ok : Bool) (events : Nat → NetEvent)
    (queue : List (List Nat)) (collector_id now : Nat) :
    (send_queue connect_ok events queue collector_id now).1 = .ok () ↔
      connect_ok = true ∧
      (∀ j < queue.length, events j = NetEvent.response .Ack) ∧
      ∃ r, events queue.length = NetEvent.response r := by
  cases connect_ok with
  | false => simp [send_queue]
  | true =>
    rcases hsl : send_loop events 0 queue with ⟨res, q', sent⟩
    cases res with
    | error e =>
      have hne : ¬ ∀ j < queue.length, events j = NetEvent.response .Ack := by
        intro hall
        have hok := (send_loop_ok_iff events queue 0).mpr
          (fun j hj => by rw [Nat.zero_add]; exact hall j hj)
        rw [hsl] at hok
        exact absurd hok (by simp)
      simp only [send_queue, if_pos rfl, hsl, true_and]
      constructor
      · intro h; exact absurd h (by simp)
      · rintro ⟨hacks, -⟩; exact absurd hacks hne
    | ok u =>
      have hok : (send_loop events 0 queue).1 = .ok () := by rw [hsl]
      have hacks := (send_loop_ok_iff events queue 0).mp hok
      simp only [Nat.zero_add] at hacks
      simp only [send_queue, if_pos rfl, hsl, true_and]
      cases hev : events queue.length with
      | writeFail =>
        simp only [hev]
        constructor
        · intro h; exact absurd h (by simp)
        · rintro ⟨-, r, hr⟩; exact absurd hr (by simp)
      | readFail =>
        simp only [hev]
        constructor
        · intro h; exact absurd h (by simp)
        · rintro ⟨-, r, hr⟩; exact absurd hr (by simp)
      | readZero =>
        simp only [hev]
        constructor
        · intro h; exact absurd h (by simp)
        · rintro ⟨-, r, hr⟩; exact absurd hr (by simp)
      | response r =>
        simp only [hev]
        exact ⟨fun _ => ⟨hacks, r, rfl⟩, fun _ => rfl⟩

/-- On a successful cycle the queue is empty and the frames written are
exactly the queued frames in order, followed by the one `RequestWork`
frame. -/
theorem send_queue_ok_out (connect_ok : Bool) (events : Nat → NetEvent)
    (queue : List (List Nat)) (collector_id now : Nat)
    (h : (send_queue connect_ok events queue collector_id now).1 = .ok ()) :
    (send_queue connect_ok events queue collector_id now).2.1 = [] ∧
      (send_queue connect_ok events queue collector_id now).2.2 =
        queue ++ [encode_v1 (.RequestWork collector_id) now] := by
  cases connect_ok with
  | false => rw [send_queue] at h; exact absurd h (by simp)
  | true =>
    rcases hsl : send_loop events 0 queue with ⟨res, q', sent⟩
    cases res with
    | error e =>
      simp only [send_queue, if_pos rfl, hsl] at h
      exact absurd h (by simp)
    | ok u =>
      have hok : (send_loop events 0 queue).1 = .ok () := by rw [hsl]
      obtain ⟨h1, h2⟩ := send_loop_ok_out events queue 0 hok
      rw [hsl] at h1 h2
      cases hev : events queue.length with
      | writeFail =>
        simp only [send_queue, if_pos rfl, hsl, hev] at h
        exact absurd h (by simp)
      | readFail =>
        simp only [send_queue, if_pos rfl, hsl, hev] at h
        exact absurd h (by simp)
      | readZero =>
        simp only [send_queue, if_pos rfl, hsl, hev] at h
        exact absurd h (by simp)
      | response r =>
        have e1 : send_queue true events queue collector_id now =
            (.ok (), q', sent ++ [encode_v1 (.RequestWork collector_id) now]) := by
          simp only [send_queue, if_pos rfl, hsl, hev]
          rfl
        rw [e1]
        exact ⟨h1, by rw [show sent = queue from h2]⟩

/-- The write-only sender also only shortens the queue from the front. -/
theorem send_loop_v2_queue_spec (writes : Nat → Bool) (queue : List (List Nat))
    (i : Nat) :
    ∃ k, k ≤ queue.length ∧ (send_loop_v2 writes i queue).2 = queue.drop k := by
  induction queue generalizing i with
  | nil => exact ⟨0, by simp, by simp [send_loop_v2]⟩
  | cons command rest ih =>
    cases hw : writes i with
    | false => exact ⟨0, by simp, by simp [send_loop_v2, hw]⟩
    | true =>
      obtain ⟨k, hk, hq⟩ := ih (i + 1)
      exact ⟨k + 1, by simpa using Nat.succ_le_succ hk,
        by simpa [send_loop_v2, hw] using hq⟩

theorem send_queue_v2_queue_spec (connect_ok : Bool) (writes : Nat → Bool)
    (queue : List (List Nat)) :
    ∃ k, k ≤ queue.length ∧
      (send_queue_v2 connect_ok writes queue).2 = queue.drop k := by
  cases connect_ok with
  | false => exact ⟨0, by simp, by simp [send_queue_v2]⟩
  | true =>
    obtain ⟨k, hk, hq⟩ := send_loop_v2_queue_spec writes queue 0
    exact ⟨k, hk, by simpa [send_queue_v2] using hq⟩

/-! ## Frame field extraction (for the wire-format claim) -/

/-- The header getters of `decode_v1`, evaluated on a buffer split into the
six frame segments. -/
theorem frame_fields (m v t s p crc extra : List Nat)
    (hm : m.length = 2) (hv : v.length = 2) (ht : t.length = 4)
    (hs : s.length = 4) (hc : crc.length = 4) (hps : fromBE s = p.length) :
    (m ++ (v ++ (t ++ (s ++ (p ++ (crc ++ extra)))))).take 2 = m ∧
    ((m ++ (v ++ (t ++ (s ++ (p ++ (crc ++ extra)))))).drop 2).take 2 = v ∧
    ((m ++ (v ++ (t ++ (s ++ (p ++ (crc ++ extra)))))).drop 4).take 4 = t ∧
    psField (m ++ (v ++ (t ++ (s ++ (p ++ (crc ++ extra)))))) = fromBE s ∧
    payloadField (m ++ (v ++ (t ++ (s ++ (p ++ (crc ++ extra)))))) = p ∧
    crcField (m ++ (v ++ (t ++ (s ++ (p ++ (crc ++ extra)))))) = fromBE crc ∧
    (m ++ (v ++ (t ++ (s ++ (p ++ (crc ++ extra)))))).length =
      16 + p.length + extra.length := by
  set b := m ++ (v ++ (t ++ (s ++ (p ++ (crc ++ extra))))) with hb
  have hlen : b.length = 16 + p.length + extra.length := by
    rw [hb]; simp only [List.length_append, hm, hv, ht, hs, hc]; omega
  have htake2 : b.take 2 = m := by rw [hb]; exact List.take_left' hm
  have hdrop2 : b.drop 2 = v ++ (t ++ (s ++ (p ++ (crc ++ extra)))) := by
    rw [hb]; exact List.drop_left' hm
  have htakev : (b.drop 2).take 2 = v := by
    rw [hdrop2]; exact List.take_left' hv
  have hdrop4 : b.drop 4 = t ++ (s ++ (p ++ (crc ++ extra))) := by
    have h := List.drop_drop 2 2 b
    rw [hdrop2, List.drop_left' hv] at h
    exact h.symm
  have htakets : (b.drop 4).take 4 = t := by
    rw [hdrop4]; exact List.take_left' ht
  have hdrop8 : b.drop 8 = s ++ (p ++ (crc ++ extra)) := by
    have h := List.drop_drop 4 4 b
    rw [hdrop4, List.drop_left' ht] at h
    exact h.symm
  have htakeps : (b.drop 8).take 4 = s := by
    rw [hdrop8]; exact List.take_left' hs
  have hdrop12 : b.drop 12 = p ++ (crc ++ extra) := by
    have h := List.drop_drop 4 8 b
    rw [hdrop8, List.drop_left' hs] at h
    exact h.symm
  have hpsf : psField b = fromBE s := by rw [psField, htakeps]
  have htakep : payloadField b = p := by
    rw [payloadField, hpsf, hps, hdrop12]; exact List.take_left' rfl
  have hdrop12ps : b.drop (12 + p.length) = crc ++ extra := by
    have h := List.drop_drop p.length 12 b
    rw [hdrop12, List.drop_left' rfl] at h
    exact h.symm
  have htakecrc : crcField b = fromBE crc := by
    rw [crcField, hpsf, hps, hdrop12ps, List.take_left' hc]
  exact ⟨htake2, htakev, htakets, hpsf, htakep, htakecrc, hlen⟩

/-! ## The claims -/

/-- C1. The claim fails on the code: when the read of the acknowledgment
returns an I/O error, `send_queue` propagates `UnableToReceiveData` with
`.map_err(..)?` *without* pushing the popped frame back, so the in-flight
frame is removed from the queue although no `Ack` was received. At the
failing input — a one-frame queue whose first interaction is a read
error — the cycle ends in `UnableToReceiveData` with an *empty* queue
(the claim requires the frame back at the front), while the two
neighbouring failure modes of the very same read (a zero-byte read and a
non-`Ack` response) do re-queue the frame, as does a write failure:
the missing `push_front` on the error path is a slip against the
documented retry-the-identical-frame mechanism. -/
theorem claim_C1 :
    (send_queue true (fun _ => NetEvent.readFail) [[9]] 7 5).1 =
      .error .UnableToReceiveData ∧
    (send_queue true (fun _ => NetEvent.readFail) [[9]] 7 5).2.1 = [] ∧
    (send_queue true (fun _ => NetEvent.readZero) [[9]] 7 5).2.1 = [[9]] ∧
    (send_queue true (fun _ => NetEvent.response .NoWork) [[9]] 7 5).2.1 =
      [[9]] ∧
    (send_queue true (fun _ => NetEvent.writeFail) [[9]] 7 5).2.1 = [[9]] := by
  refine ⟨rfl, rfl, rfl, rfl, rfl⟩

/-- C2. Decoding inverts encoding: for every in-range command and clock
value, `decode_v1 (encode_v1 c now)` succeeds and returns the command
unchanged together with the stamped 32-bit unix timestamp. -/
theorem claim_C2 (c : CollectorCommandV1) (hv : c.valid) (now : Nat) :
    decode_v1 (encode_v1 c now) = some (now % 2 ^ 32, c) := by
  have h := decode_encode_append c hv now []
  rwa [List.append_nil] at h

theorem claim_C2_witness :
    (CollectorCommandV1.SubmitData 123 100 50 7).valid ∧
      decode_v1 (encode_v1 (.SubmitData 123 100 50 7) 99) =
        some (99 % 2 ^ 32, .SubmitData 123 100 50 7) :=
  ⟨by decide, claim_C2 _ (by decide) 99⟩

/-- C3. The complete failure contract of `decode_v1`: it returns nothing
exactly when the buffer is shorter than the 12-byte header, or the size
field exceeds the remaining bytes, or the magic field is not 1234, or the
version field is not 1, or the trailing checksum differs from the CRC-32
recomputed over the payload slice, or the payload does not deserialize —
and on every other buffer it succeeds. -/
theorem claim_C3 (b : List Nat) :
    decode_v1 b = none ↔
      b.length < 12 ∨ b.length < 16 + psField b ∨
      fromBE (b.take 2) ≠ MAGIC_NUMBER ∨
      fromBE ((b.drop 2).take 2) ≠ VERSION_NUMBER ∨
      crcField b ≠ crc32fast_hash (payloadField b) ∨
      deserializeCommand (payloadField b) = none := by
  constructor
  · intro hnone
    by_contra hcon
    push_neg at hcon
    obtain ⟨h1, h2, h3, h4, h5, h6⟩ := hcon
    rcases ho : deserializeCommand (payloadField b) with _ | c
    · exact h6 ho
    · have := (decode_v1_eq_some_iff b (fromBE ((b.drop 4).take 4)) c).mpr
        ⟨by omega, by omega, h3, h4, h5, ho, rfl⟩
      rw [hnone] at this
      exact Option.noConfusion this
  · intro hcon
    rcases hd : decode_v1 b with _ | tc
    · rfl
    · obtain ⟨t, c⟩ := tc
      obtain ⟨g1, g2, g3, g4, g5, g6, -⟩ := (decode_v1_eq_some_iff b t c).mp hd
      rcases hcon with h | h | h | h | h | h
      · omega
      · omega
      · exact absurd g3 h
      · exact absurd g4 h
      · exact absurd g5 h
      · rw [g6] at h; exact Option.noConfusion h

/-- C4. Corruption detection: replacing any single byte of the magic,
version, payload or trailing-checksum region of an encoded frame with a
different byte value makes `decode_v1` fail. -/
theorem claim_C4 (c : CollectorCommandV1) (now i v : Nat)
    (hreg : i < 4 ∨ (12 ≤ i ∧ i < 12 + (serializeCommand c).length) ∨
      (12 + (serializeCommand c).length ≤ i ∧
        i < 16 + (serializeCommand c).length))
    (hvlt : v < 256) (hne : v ≠ (encode_v1 c now).getD i 0) :
    decode_v1 ((encode_v1 c now).set i v) = none :=
  decode_set_corrupt c now i v hreg hvlt hne

set_option maxRecDepth 1000000 in
theorem claim_C4_witness :
    ((12 : Nat) < 4 ∨ (12 ≤ 12 ∧ 12 < 12 +
        (serializeCommand (.RequestWork 7)).length) ∨
      (12 + (serializeCommand (.RequestWork 7)).length ≤ 12 ∧
        12 < 16 + (serializeCommand (.RequestWork 7)).length)) ∧
    (0 : Nat) < 256 ∧
    (0 : Nat) ≠ (encode_v1 (.RequestWork 7) 5).getD 12 0 ∧
    decode_v1 ((encode_v1 (.RequestWork 7) 5).set 12 0) = none :=
  ⟨by decide, by decide, by decide,
    claim_C4 _ 5 12 0 (by decide) (by decide) (by decide)⟩

/-- C5. Wire format of an encoded command frame: exactly the concatenation
`magic(1234):u16 ‖ version(1):u16 ‖ timestamp:u32 ‖ payload_size:u32 ‖
payload ‖ crc32:u32`, all big-endian, with `payload_size` the exact payload
byte length and `crc32` the CRC-32 of the payload alone (the header is not
covered). -/
theorem claim_C5 (c : CollectorCommandV1) (now : Nat) :
    encode_v1 c now =
      toBE 1234 2 ++ toBE 1 2 ++ toBE (now % 2 ^ 32) 4 ++
        toBE (serializeCommand c).length 4 ++ serializeCommand c ++
        toBE (crc32fast_hash (serializeCommand c)) 4 ∧
    (encode_v1 c now).take 2 = toBE 1234 2 ∧
    ((encode_v1 c now).drop 2).take 2 = toBE 1 2 ∧
    ((encode_v1 c now).drop 4).take 4 = toBE (now % 2 ^ 32) 4 ∧
    psField (encode_v1 c now) = (serializeCommand c).length ∧
    payloadField (encode_v1 c now) = serializeCommand c ∧
    crcField (encode_v1 c now) = crc32fast_hash (serializeCommand c) ∧
    (encode_v1 c now).length = 16 + (serializeCommand c).length := by
  have e256 : (256 : Nat) ^ 4 = 2 ^ 32 := by norm_num
  have hpsval : fromBE (toBE (serializeCommand c).length 4) =
      (serializeCommand c).length := by
    rw [fromBE_toBE, e256]
    exact Nat.mod_eq_of_lt (serializeCommand_length_lt c)
  have hcrcval : fromBE (toBE (crc32fast_hash (serializeCommand c)) 4) =
      crc32fast_hash (serializeCommand c) := by
    rw [fromBE_toBE, e256]
    exact Nat.mod_eq_of_lt (crc32fast_hash_lt (serializeCommand_lt c))
  have hshape : encode_v1 c now =
      toBE 1234 2 ++ (toBE 1 2 ++ (toBE (now % 2 ^ 32) 4 ++
        (toBE (serializeCommand c).length 4 ++ (serializeCommand c ++
          (toBE (crc32fast_hash (serializeCommand c)) 4 ++ []))))) := by
    simp [encode_v1, MAGIC_NUMBER, VERSION_NUMBER, List.append_assoc]
  obtain ⟨f1, f2, f3, f4, f5, f6, f7⟩ := frame_fields (toBE 1234 2) (toBE 1 2)
    (toBE (now % 2 ^ 32) 4) (toBE (serializeCommand c).length 4)
    (serializeCommand c) (toBE (crc32fast_hash (serializeCommand c)) 4) []
    (toBE_length 1234 2) (toBE_length 1 2) (toBE_length _ 4) (toBE_length _ 4)
    (toBE_length _ 4) hpsval
  rw [← hshape] at f1 f2 f3 f4 f5 f6 f7
  refine ⟨by rw [hshape]; simp [List.append_assoc], f1, f2, f3, ?_, f5, ?_, ?_⟩
  · rw [f4, hpsval]
  · rw [f6, hcrcval]
  · rw [f7]; simp

/-- C6. At-most-once command consumption: after `add_command store id cmd`,
the first `get_commands id` returns the command and removes it, any further
`get_commands id` (with no intervening insert) returns nothing, and the
connection handler correspondingly answers the first `RequestWork id` with
`Task cmd` and any later one with `NoWork`. -/
theorem claim_C6 (store : CommandStore) (collector_id : Nat)
    (command : TaskType) (rows : List Row) (ts₁ ts₂ : Nat) (io₁ io₂ : Bool) :
    (get_commands (add_command store collector_id command) collector_id).1 =
      some command ∧
    (∀ s : CommandStore, (get_commands (get_commands s collector_id).2
      collector_id).1 = none) ∧
    (new_connection_step ⟨add_command store collector_id command, rows⟩ ts₁
      (.RequestWork collector_id) io₁).1 =
        some (encode_response_v1 (.Task command)) ∧
    (new_connection_step (new_connection_step
        ⟨add_command store collector_id command, rows⟩ ts₁
        (.RequestWork collector_id) io₁).2 ts₂
      (.RequestWork collector_id) io₂).1 =
        some (encode_response_v1 .NoWork) := by
  refine ⟨?_, fun s => ?_, ?_, ?_⟩
  · simp [get_commands, add_command]
  · simp [get_commands]
  · simp [new_connection_step, get_commands, add_command]
  · simp [new_connection_step, get_commands, add_command]

/-- C7. For a `SubmitData` message the handler appends exactly one row
carrying the collector identity, the frame timestamp and the three metric
values (the memory values through the source's `as i64` cast), and replies
`Ack` precisely when the insert succeeds; on an insert failure nothing is
written back and the stored rows are unchanged. -/
theorem claim_C7 (state : ServerState)
    (timestamp collector_id total_memory used_memory average_cpu_usage : Nat) :
    new_connection_step state timestamp
        (.SubmitData collector_id total_memory used_memory average_cpu_usage)
        true =
      (some (encode_response_v1 .Ack),
        { state with rows := state.rows ++
            [⟨collector_id, timestamp, i64ofNat total_memory,
              i64ofNat used_memory, average_cpu_usage⟩] }) ∧
    new_connection_step state timestamp
        (.SubmitData collector_id total_memory used_memory average_cpu_usage)
        false =
      (none, state) := by
  exact ⟨rfl, rfl⟩

/-- C8. A delivery cycle returns success exactly when the connection
succeeded, every queued frame was acknowledged with `Ack`, and the final
`RequestWork` interaction got some decoded response back — any response
variant is accepted without error; on success the queue is empty and the
frames written are precisely the queued frames in their original order
followed by the single `RequestWork` frame. -/
theorem claim_C8 (connect_ok : Bool) (events : Nat → NetEvent)
    (queue : List (List Nat)) (collector_id now : Nat) :
    ((send_queue connect_ok events queue collector_id now).1 = .ok () ↔
      connect_ok = true ∧
      (∀ j < queue.length, events j = NetEvent.response .Ack) ∧
      ∃ r, events queue.length = NetEvent.response r) ∧
    ((send_queue connect_ok events queue collector_id now).1 = .ok () →
      (send_queue connect_ok events queue collector_id now).2.1 = [] ∧
      (send_queue connect_ok events queue collector_id now).2.2 =
        queue ++ [encode_v1 (.RequestWork collector_id) now]) :=
  ⟨send_queue_ok_iff connect_ok events queue collector_id now,
    send_queue_ok_out connect_ok events queue collector_id now⟩

theorem claim_C8_witness :
    (send_queue true (fun _ => NetEvent.response .Ack) [[9]] 7 5).1 = .ok () ∧
    (send_queue true (fun _ => NetEvent.response .Ack) [[9]] 7 5).2.1 = [] ∧
    (send_queue true (fun _ => NetEvent.response .Ack) [[9]] 7 5).2.2 =
      [[9]] ++ [encode_v1 (.RequestWork 7) 5] := by
  have h := claim_C8 true (fun _ => NetEvent.response .Ack) [[9]] 7 5
  have hok : (send_queue true (fun _ => NetEvent.response .Ack) [[9]] 7 5).1 =
      .ok () := h.1.mpr ⟨rfl, fun j _ => rfl, ⟨.Ack, rfl⟩⟩
  exact ⟨hok, (h.2 hok).1, (h.2 hok).2⟩

/-- C9. Responses are sent bare: `encode_response_v1` is exactly the bincode
serialization of the response — 4 or 8 bytes, with no magic, version,
timestamp, size or CRC fields (indeed the bytes are shorter than a frame
header and do not frame-decode) — and `decode_response_v1` inverts it. -/
theorem claim_C9 (r : CollectorResponseV1) :
    encode_response_v1 r = serializeResponse r ∧
    decode_response_v1 (encode_response_v1 r) = some r ∧
    (encode_response_v1 r).length ≤ 8 ∧
    decode_v1 (encode_response_v1 r) = none := by
  cases r with
  | Ack => exact ⟨rfl, by decide, by decide, by decide⟩
  | NoWork => exact ⟨rfl, by decide, by decide, by decide⟩
  | Task t => cases t with
    | Shutdown => exact ⟨rfl, by decide, by decide, by decide⟩

/-- C10. Trailing bytes after a frame are silently ignored: appending any
byte sequence to an encoded frame leaves the decode result unchanged (and
still successful). -/
theorem claim_C10 (c : CollectorCommandV1) (hv : c.valid) (now : Nat)
    (extra : List Nat) :
    decode_v1 (encode_v1 c now ++ extra) = decode_v1 (encode_v1 c now) ∧
    decode_v1 (encode_v1 c now ++ extra) = some (now % 2 ^ 32, c) := by
  have h1 := decode_encode_append c hv now extra
  have h2 := decode_encode_append c hv now []
  rw [List.append_nil] at h2
  exact ⟨h1.trans h2.symm, h1⟩

theorem claim_C10_witness :
    (CollectorCommandV1.RequestWork 3).valid ∧
    decode_v1 (encode_v1 (.RequestWork 3) 7 ++ [9, 9]) =
      decode_v1 (encode_v1 (.RequestWork 3) 7) :=
  ⟨by decide, (claim_C10 _ (by decide) 7 [9, 9]).1⟩

end Telemetry
